import Mathlib

/-
Verification of the omg-js transaction core against its natural-language
specification.

The repository ships only the public wrappers (`OmgJS`, the legacy
`ChildChain` class), the runtime validator stubs, the hex utilities and the
golden-vector test corpus; the codec / builder / struct-hash modules are
referenced through `@lib/...` imports whose bodies are not part of the
source tree.  Where a claim is decided by such a missing module, the
corresponding definition below is modelled from the specification text and
is marked `Modelled from the spec:` in its doc comment.  Everything else is
translated directly from the TypeScript / JavaScript source.
-/

set_option maxRecDepth 100000
set_option maxHeartbeats 4000000

namespace OmgCore

/-! ## Hex utilities (src/common/util.ts)

JavaScript strings are embedded as `List Char`; a JS `number | string`
argument is embedded as the sum type `JSVal`. -/

/-- A JavaScript `number | string` argument value. -/
inductive JSVal where
  | str : List Char → JSVal
  | num : Nat → JSVal
deriving DecidableEq, Repr

/-- Prefix a hex string with `0x` (from `prefixHex` in src/common/util.ts:
`hex.startsWith('0x') ? hex : '0x' + hex`). -/
def prefixHex (hex : List Char) : List Char :=
  if hex.take 2 = ['0', 'x'] then hex else '0' :: 'x' :: hex

/-- Turn an int192 into a prefixed hex string (from `int192toHex` in
src/common/util.ts): a string argument is passed through `prefixHex`
unchanged, a number argument is rendered in base 16 first
(`int192.toString(16)`). -/
def int192toHex (int192 : JSVal) : List Char :=
  match int192 with
  | .str s => prefixHex s
  | .num n => prefixHex (Nat.toDigits 16 n)

/-! ## UTXO position codec

The encoder/decoder bodies live in `@lib/transaction/encoders`, which is not
part of the source tree; they are modelled from spec §4.1. -/

/-- Multiplicative offset separating the block-number digits of a packed
UTXO position (spec §3: `BLOCK_OFFSET = 10^15`). -/
def BLOCK_OFFSET : Nat := 1000000000000000

/-- Multiplicative offset separating the transaction-index digits of a
packed UTXO position (spec §3: `TX_OFFSET = 10^4`). -/
def TX_OFFSET : Nat := 10000

/-- A UTXO position triple (spec §3 `UtxoPosition`). -/
structure UtxoPosition where
  blknum : Nat
  txindex : Nat
  oindex : Nat
deriving DecidableEq, Repr

/-- Error raised when packing a UTXO position would lose information
(spec §7 `RangeError`). -/
inductive PosError where
  | rangeError
deriving DecidableEq, Repr

/-- Modelled from the spec: `encodeUtxoPos` of `@lib/transaction/encoders`
is absent from the source tree; spec §4.1 specifies
`blockNumber * BLOCK_OFFSET + transactionIndex * TX_OFFSET + outputIndex`,
failing with `RangeError` when `outputIndex >= TX_OFFSET` or
`transactionIndex * TX_OFFSET >= BLOCK_OFFSET`. -/
def encodeUtxoPos (p : UtxoPosition) : Except PosError Nat :=
  if TX_OFFSET ≤ p.oindex then .error .rangeError
  else if BLOCK_OFFSET ≤ p.txindex * TX_OFFSET then .error .rangeError
  else .ok (p.blknum * BLOCK_OFFSET + p.txindex * TX_OFFSET + p.oindex)

/-- Modelled from the spec: `decodeUtxoPos` of `@lib/transaction/encoders`
is absent from the source tree; spec §4.1 specifies
`outputIndex = value % TX_OFFSET`,
`transactionIndex = (value / TX_OFFSET) % (BLOCK_OFFSET / TX_OFFSET)`,
`blockNumber = value / BLOCK_OFFSET`. -/
def decodeUtxoPos (v : Nat) : UtxoPosition :=
  { blknum := v / BLOCK_OFFSET
    txindex := (v / TX_OFFSET) % (BLOCK_OFFSET / TX_OFFSET)
    oindex := v % TX_OFFSET }

/-! ## Legacy ChildChain wrapper (src/unnamed/part_001)

A small universe of JavaScript values lets the validator stubs receive
arbitrary (also malformed) arguments, as the dynamically typed source
does. -/

/-- A dynamically typed JavaScript value, as received by the legacy
`ChildChain` entry points. -/
inductive JsValue where
  | null : JsValue
  | bool : Bool → JsValue
  | num : Nat → JsValue
  | str : List Char → JsValue
  | arr : List JsValue → JsValue
deriving Repr

/-- The typed error of the legacy wrapper (`InvalidArgumentError` from
`omg-js-util`). -/
inductive ChildChainError where
  | invalidArgument
deriving DecidableEq, Repr

/-- From `validateInputs` in the legacy ChildChain source: the body is a
TODO stub, `const valid = true; if (!valid) throw new
InvalidArgumentError()`. -/
def validateInputs (_arg : JsValue) : Except ChildChainError Unit :=
  let valid := true
  if !valid then .error .invalidArgument else .ok ()

/-- From `validateOutputs` in the legacy ChildChain source (TODO stub,
`valid = true`). -/
def validateOutputs (_arg : JsValue) : Except ChildChainError Unit :=
  let valid := true
  if !valid then .error .invalidArgument else .ok ()

/-- From `validateCurrency` in the legacy ChildChain source (TODO stub,
`valid = true`). -/
def validateCurrency (_arg : JsValue) : Except ChildChainError Unit :=
  let valid := true
  if !valid then .error .invalidArgument else .ok ()

/-- From `validatePrivateKey` in the legacy ChildChain source (TODO stub,
`valid = true`). -/
def validatePrivateKey (_arg : JsValue) : Except ChildChainError Unit :=
  let valid := true
  if !valid then .error .invalidArgument else .ok ()

/-- From `validateAddress` in the legacy ChildChain source (TODO stub,
`valid = true`). -/
def validateAddress (_arg : JsValue) : Except ChildChainError Unit :=
  let valid := true
  if !valid then .error .invalidArgument else .ok ()

/-! ## Hex-to-bytes conversion and the `sendTransaction` argument mutation -/

/-- Numeric value of one hex digit character. -/
def hexCharVal (c : Char) : Nat :=
  if '0' ≤ c ∧ c ≤ '9' then c.toNat - '0'.toNat
  else if 'a' ≤ c ∧ c ≤ 'f' then c.toNat - 'a'.toNat + 10
  else if 'A' ≤ c ∧ c ≤ 'F' then c.toNat - 'A'.toNat + 10
  else 0

/-- Bytes of a run of hex digit characters, two characters per byte. -/
def hexPairs : List Char → List Nat
  | a :: b :: rest => (16 * hexCharVal a + hexCharVal b) :: hexPairs rest
  | _ => []

/-- Modelled from the spec: `hexToByteArr` comes from the external
`omg-js-util` package; per the README's API contract it turns a
`0x`-prefixed hex address string into the corresponding byte array. -/
def hexToByteArr (s : List Char) : List Nat :=
  hexPairs (if s.take 2 = ['0', 'x'] then s.drop 2 else s)

/-- The `newowner` field of an output object handed to
`ChildChain.sendTransaction`: a hex string before the call, a byte array
after the in-place rewrite performed by the call. -/
inductive OwnerVal where
  | hexStr : List Char → OwnerVal
  | byteArr : List Nat → OwnerVal
deriving DecidableEq, Repr

/-- An element of the `outputs` array handed to
`ChildChain.sendTransaction` (README: `[{newowner1, amount1},
{newowner2, amount2}]`; both owner fields are carried so that the in-place
writes to `outputs[0].newowner1` and `outputs[1].newowner2` can be
expressed). -/
structure JsOutput where
  newowner1 : OwnerVal
  newowner2 : OwnerVal
  amount : Nat
deriving DecidableEq, Repr

/-- The effect of `ChildChain.sendTransaction` on its `outputs` argument
(from the legacy source:
`outputs[0].newowner1 = Array.from(hexToByteArr(outputs[0].newowner1))`
and
`outputs[1].newowner2 = Array.from(hexToByteArr(outputs[1].newowner2))`).
The result is the state of the caller's array after the call; `none`
models the TypeError the JavaScript raises when the array is too short or
an owner field is not a hex string. -/
def sendTransactionOutputsEffect (outputs : List JsOutput) : Option (List JsOutput) :=
  match outputs with
  | o0 :: o1 :: rest =>
    match o0.newowner1, o1.newowner2 with
    | .hexStr s1, .hexStr s2 =>
      some ({ o0 with newowner1 := .byteArr (hexToByteArr s1) } ::
            { o1 with newowner2 := .byteArr (hexToByteArr s2) } :: rest)
    | _, _ => none
  | _ => none

/-! ## Legacy transaction encoder (golden vectors of src/unnamed/part_001)

The encoder body (`newTx` / RLP / `base16Encode` modules) is not part of
the source tree; the test corpus fixes its behaviour through two golden
hex vectors.  The definitions below follow the encoding rule of spec §4.2
(a recursive length-prefixed encoding with minimal big-endian integer
leaves and zero encoded as the empty byte string, i.e. RLP) with the flat
field grouping that spec §9 instructs to take from the golden vectors:
`[blknum1, txindex1, oindex1, blknum2, txindex2, oindex2, cur12,
newowner1, amount1, newowner2, amount2]`, absent slots padded with
zeroes up to the fixed arity of two inputs and two outputs. -/

/-- Byte extraction worker, structurally recursive on a fuel argument so
that evaluation stays definitional. -/
def natBytesBEAux : Nat → Nat → List Nat
  | 0, _ => []
  | fuel + 1, n => if n = 0 then [] else natBytesBEAux fuel (n / 256) ++ [n % 256]

/-- Minimal big-endian byte string of a natural number; zero becomes the
empty byte string (spec §4.2 leaf encoding rule). -/
def natBytesBE (n : Nat) : List Nat := natBytesBEAux n n

/-- Recursive length-prefix encoding of a byte-string leaf (the RLP string
rule): a single byte below 0x80 stands for itself, otherwise the string is
prefixed with its length. -/
def rlpBytes (l : List Nat) : List Nat :=
  match l with
  | [b] => if b < 128 then [b] else [129, b]
  | _ => if l.length ≤ 55 then (128 + l.length) :: l
         else (183 + (natBytesBE l.length).length) :: (natBytesBE l.length ++ l)

/-- Integer leaf: the minimal big-endian byte string, length-prefixed;
zero is the explicit empty byte string 0x80 (spec §4.2). -/
def rlpNat (n : Nat) : List Nat := rlpBytes (natBytesBE n)

/-- Recursive length-prefix encoding of a list payload (the RLP list
rule). -/
def rlpList (payload : List Nat) : List Nat :=
  if payload.length ≤ 55 then (192 + payload.length) :: payload
  else (247 + (natBytesBE payload.length).length) :: (natBytesBE payload.length ++ payload)

/-- A transaction input of the legacy format: a UTXO position triple. -/
structure LegacyInput where
  blknum : Nat
  txindex : Nat
  oindex : Nat
deriving DecidableEq, Repr

/-- A transaction output of the legacy format: a 20-byte owner address and
an amount. -/
structure LegacyOutput where
  owner : List Nat
  amount : Nat
deriving DecidableEq, Repr

/-- A legacy transaction body as handed to `createTransaction` in the test
corpus: up to two inputs, up to two outputs, one 20-byte currency. -/
structure LegacyTxBody where
  inputs : List LegacyInput
  outputs : List LegacyOutput
  currency : List Nat
deriving DecidableEq, Repr

/-- The zero placeholder input used for an absent input slot. -/
def zeroInput : LegacyInput := ⟨0, 0, 0⟩

/-- The all-zero 20-byte address. -/
def zeroAddress : List Nat := List.replicate 20 0

/-- The zero placeholder output (zero address, zero amount) used for an
absent output slot. -/
def zeroOutput : LegacyOutput := ⟨zeroAddress, 0⟩

/-- Take the first two elements, padding with the placeholder `z` when
fewer are present. -/
def padTo2 {α : Type} (l : List α) (z : α) : List α :=
  match l with
  | [] => [z, z]
  | [a] => [a, z]
  | a :: b :: _ => [a, b]

/-- The three encoded position fields of one input slot. -/
def encInput (i : LegacyInput) : List Nat :=
  rlpNat i.blknum ++ rlpNat i.txindex ++ rlpNat i.oindex

/-- The two encoded fields of one output slot. -/
def encOutput (o : LegacyOutput) : List Nat :=
  rlpBytes o.owner ++ rlpNat o.amount

/-- The flat encoded field sequence of a legacy transaction:
`[blknum1, txindex1, oindex1, blknum2, txindex2, oindex2, cur12,
newowner1, amount1, newowner2, amount2]`, each slot zero-padded when
absent. -/
def txPayload (body : LegacyTxBody) : List Nat :=
  ((padTo2 body.inputs zeroInput).map encInput).flatten ++
  rlpBytes body.currency ++
  ((padTo2 body.outputs zeroOutput).map encOutput).flatten

/-- Modelled from the spec: `ChildChain.createTransaction` (the `newTx` /
RLP modules are absent from the source tree) — the unsigned serialization
of a legacy transaction body, the recursive length-prefixed encoding of
the flat field sequence, whose exact bytes are fixed by the two golden
vectors of the test corpus. -/
def createTransaction (body : LegacyTxBody) : List Nat :=
  rlpList (txPayload body)

/-- Base-16 rendering of a byte string as a lowercase hex character list
(the `base16Encode` step of the legacy wrapper). -/
def base16Encode (l : List Nat) : List Char :=
  (l.map (fun b => [Nat.digitChar (b / 16), Nat.digitChar (b % 16)])).flatten

/-- The owner address of the corpus' first output,
0xf4ebbe787311bb955bb353b7a4d8b97af8ed1c9b. -/
def addr1 : List Nat := hexToByteArr ("0xf4ebbe787311bb955bb353b7a4d8b97af8ed1c9b".toList)

/-- The owner address of the corpus' second output,
0x3272ee86d8192f59261960c9ae186063c8c9041f. -/
def addr2 : List Nat := hexToByteArr ("0x3272ee86d8192f59261960c9ae186063c8c9041f".toList)

/-- The all-zero currency of the corpus bodies (ETH). -/
def curEth : List Nat := hexToByteArr ("0000000000000000000000000000000000000000".toList)

/-- The corpus' one-input / one-output body. -/
def corpusBody1 : LegacyTxBody :=
  { inputs := [⟨19774001, 0, 0⟩]
    outputs := [⟨addr1, 1000000000000000000⟩]
    currency := curEth }

/-- The corpus' two-input / two-output body. -/
def corpusBody2 : LegacyTxBody :=
  { inputs := [⟨19774001, 0, 0⟩, ⟨19774002, 0, 0⟩]
    outputs := [⟨addr1, 1000000000000000000⟩, ⟨addr2, 1000000000000000000⟩]
    currency := curEth }

/-- The corpus' one-input / one-output body with the absent slots written
out as explicit zero placeholder entries. -/
def corpusBody1Padded : LegacyTxBody :=
  { inputs := [⟨19774001, 0, 0⟩, zeroInput]
    outputs := [⟨addr1, 1000000000000000000⟩, zeroOutput]
    currency := curEth }

/-! ## Transaction builder (spec §4.4)

The builder body lives in `@lib/transaction/txBuilder`, which is not part
of the source tree; it is modelled from spec §4.4.  Addresses and
currency identifiers are embedded as natural numbers. -/

/-- An available unspent output of the sender, as supplied to the builder
(`fromUtxos`). -/
structure BuilderUtxo where
  blknum : Nat
  txindex : Nat
  oindex : Nat
  currency : Nat
  amount : Nat
deriving DecidableEq, Repr

/-- A requested payment: receiver address, currency, amount. -/
structure Payment where
  owner : Nat
  currency : Nat
  amount : Nat
deriving DecidableEq, Repr

/-- The fee requirement: currency and amount. -/
structure Fee where
  currency : Nat
  amount : Nat
deriving DecidableEq, Repr

/-- An output of the built transaction body. -/
structure BuiltOutput where
  outputType : Nat
  outputGuard : Nat
  currency : Nat
  amount : Nat
deriving DecidableEq, Repr

/-- The unsigned transaction body assembled by the builder. -/
structure BuiltBody where
  txType : Nat
  inputs : List BuilderUtxo
  outputs : List BuiltOutput
  metadata : Nat
deriving DecidableEq, Repr

/-- The builder's error kinds (spec §7): `InsufficientFundsError` carrying
the currency and the shortfall, and the arity errors. -/
inductive BuildError where
  | insufficientFunds (currency shortfall : Nat)
  | tooManyInputs (n : Nat)
  | tooManyOutputs (n : Nat)
deriving DecidableEq, Repr

/-- The arguments of `createTransactionBody`. -/
structure BuildArgs where
  fromAddress : Nat
  fromUtxos : List BuilderUtxo
  payments : List Payment
  fee : Fee
  metadata : Nat
deriving DecidableEq, Repr

/-- The distinct currencies the builder must cover: the payment currencies
plus the fee currency (spec §4.4). -/
def requiredCurrencies (a : BuildArgs) : List Nat :=
  (a.payments.map (·.currency) ++ [a.fee.currency]).dedup

/-- The total amount required in currency `c`: the payments in `c` plus
the fee when `c` is the fee currency (spec §4.4). -/
def requiredAmount (a : BuildArgs) (c : Nat) : Nat :=
  ((a.payments.filter (fun p => p.currency = c)).map (·.amount)).sum +
  (if a.fee.currency = c then a.fee.amount else 0)

/-- The total amount available in currency `c` among the caller-supplied
outputs. -/
def availableAmount (a : BuildArgs) (c : Nat) : Nat :=
  ((a.fromUtxos.filter (fun u => u.currency = c)).map (·.amount)).sum

/-- Greedy selection (spec §4.4): accumulate outputs in caller order until
the required amount is covered; `none` when the outputs are exhausted
first. -/
def selectUtxos : List BuilderUtxo → Nat → Option (List BuilderUtxo)
  | _, 0 => some []
  | [], _ + 1 => none
  | u :: rest, req + 1 =>
    if req + 1 ≤ u.amount then some [u]
    else (selectUtxos rest (req + 1 - u.amount)).map (u :: ·)

/-- Modelled from the spec: input selection for one currency
(spec §4.4) — greedy accumulation over the same-currency outputs,
`InsufficientFundsError` naming the currency and shortfall when they are
exhausted before the requirement is met. -/
def selectFor (a : BuildArgs) (c : Nat) : Except BuildError (List BuilderUtxo) :=
  match selectUtxos (a.fromUtxos.filter (fun u => u.currency = c)) (requiredAmount a c) with
  | some sel => .ok sel
  | none => .error (.insufficientFunds c (requiredAmount a c - availableAmount a c))

/-- The outputs the builder selects for currency `c` (empty on a selection
failure). -/
def getSel (a : BuildArgs) (c : Nat) : List BuilderUtxo :=
  match selectFor a c with
  | .ok sel => sel
  | .error _ => []

/-- The total amount the builder selects for currency `c`. -/
def selectedAmount (a : BuildArgs) (c : Nat) : Nat :=
  ((getSel a c).map (·.amount)).sum

/-- Selection over a list of currencies, stopping at the first failure. -/
def selectAll (a : BuildArgs) : List Nat → Except BuildError (List (Nat × List BuilderUtxo))
  | [] => .ok []
  | c :: cs =>
    match selectFor a c with
    | .error e => .error e
    | .ok sel =>
      match selectAll a cs with
      | .error e => .error e
      | .ok rest => .ok ((c, sel) :: rest)

/-- Change computation for one currency (spec §4.4): one change output
back to the sender for the positive excess, none otherwise. -/
def changeFor (a : BuildArgs) (entry : Nat × List BuilderUtxo) : Option BuiltOutput :=
  if requiredAmount a entry.1 < (entry.2.map (·.amount)).sum then
    some ⟨1, a.fromAddress, entry.1, (entry.2.map (·.amount)).sum - requiredAmount a entry.1⟩
  else none

/-- The payment output of one requested payment. -/
def paymentOutput (p : Payment) : BuiltOutput := ⟨1, p.owner, p.currency, p.amount⟩

/-- The ascending-by-position order on inputs (spec §4.4). -/
def posLeq (u v : BuilderUtxo) : Bool :=
  if u.blknum ≠ v.blknum then u.blknum < v.blknum
  else if u.txindex ≠ v.txindex then u.txindex < v.txindex
  else u.oindex ≤ v.oindex

/-- Ordered insertion for the deterministic input ordering. -/
def insertPos (u : BuilderUtxo) : List BuilderUtxo → List BuilderUtxo
  | [] => [u]
  | v :: rest => if posLeq u v then u :: v :: rest else v :: insertPos u rest

/-- Insertion sort by ascending position (spec §4.4 deterministic input
ordering). -/
def sortByPos (l : List BuilderUtxo) : List BuilderUtxo :=
  l.foldr insertPos []

/-- Modelled from the spec: `createTransactionBody` of
`@lib/transaction/txBuilder` is absent from the source tree; per spec
§4.4 it selects inputs greedily per required currency, enforces the arity
limit of four inputs and four outputs, and assembles an unsigned body
with the payment outputs followed by one change output per currency with
positive excess. -/
def createTransactionBody (a : BuildArgs) : Except BuildError BuiltBody :=
  match selectAll a (requiredCurrencies a) with
  | .error e => .error e
  | .ok sels =>
    let inputs := sortByPos (sels.map (·.2)).flatten
    if 4 < inputs.length then .error (.tooManyInputs inputs.length)
    else
      let outputs := a.payments.map paymentOutput ++ sels.filterMap (changeFor a)
      if 4 < outputs.length then .error (.tooManyOutputs outputs.length)
      else .ok { txType := 1, inputs := inputs, outputs := outputs, metadata := a.metadata }

/-- The spec §8 change scenario: one available output of 10^18 and a
payment of the full 10^18 in the same currency, zero fee. -/
def changeArgsFull : BuildArgs :=
  { fromAddress := 1
    fromUtxos := [⟨5, 0, 0, 0, 1000000000000000000⟩]
    payments := [⟨2, 0, 1000000000000000000⟩]
    fee := ⟨0, 0⟩
    metadata := 0 }

/-- The spec §8 change scenario with a partial payment of 4·10^17. -/
def changeArgsPartial : BuildArgs :=
  { changeArgsFull with payments := [⟨2, 0, 400000000000000000⟩] }

/-- The spec §8 insufficient-funds scenario: a payment of 2·10^18 against
a single available output of 10^18. -/
def insufficientArgs : BuildArgs :=
  { changeArgsFull with payments := [⟨2, 0, 2000000000000000000⟩] }

/-! ## Keccak-256 and the typed-data signing digest (spec §4.3)

The struct-hash module (`@lib/transaction/structHash`, `typedData`) is not
part of the source tree; the digest pipeline is modelled from spec §4.3
over a full Keccak-256 implementation (validated against the standard test
vectors, e.g. the empty-message digest c5d24601…).  Lanes are natural
numbers kept below 2^64. -/

/-- Left rotation of a 64-bit lane. -/
def rot64 (n k : Nat) : Nat :=
  ((n <<< k) ||| (n >>> (64 - k))) % 18446744073709551616

/-- Bitwise complement within a 64-bit lane. -/
def not64 (n : Nat) : Nat := n ^^^ 18446744073709551615

/-- One round of the Keccak-f[1600] permutation (theta, rho, pi, chi,
iota) on a 25-lane state. -/
def keccakRound (s : List Nat) (rc : Nat) : List Nat :=
  match s with
  | [a0, a1, a2, a3, a4, a5, a6, a7, a8, a9, a10, a11, a12, a13, a14, a15, a16, a17, a18, a19, a20, a21, a22, a23, a24] =>
    let c0 := a0 ^^^ a5 ^^^ a10 ^^^ a15 ^^^ a20
    let c1 := a1 ^^^ a6 ^^^ a11 ^^^ a16 ^^^ a21
    let c2 := a2 ^^^ a7 ^^^ a12 ^^^ a17 ^^^ a22
    let c3 := a3 ^^^ a8 ^^^ a13 ^^^ a18 ^^^ a23
    let c4 := a4 ^^^ a9 ^^^ a14 ^^^ a19 ^^^ a24
    let d0 := c4 ^^^ rot64 c1 1
    let d1 := c0 ^^^ rot64 c2 1
    let d2 := c1 ^^^ rot64 c3 1
    let d3 := c2 ^^^ rot64 c4 1
    let d4 := c3 ^^^ rot64 c0 1
    let t0 := a0 ^^^ d0
    let t1 := a1 ^^^ d1
    let t2 := a2 ^^^ d2
    let t3 := a3 ^^^ d3
    let t4 := a4 ^^^ d4
    let t5 := a5 ^^^ d0
    let t6 := a6 ^^^ d1
    let t7 := a7 ^^^ d2
    let t8 := a8 ^^^ d3
    let t9 := a9 ^^^ d4
    let t10 := a10 ^^^ d0
    let t11 := a11 ^^^ d1
    let t12 := a12 ^^^ d2
    let t13 := a13 ^^^ d3
    let t14 := a14 ^^^ d4
    let t15 := a15 ^^^ d0
    let t16 := a16 ^^^ d1
    let t17 := a17 ^^^ d2
    let t18 := a18 ^^^ d3
    let t19 := a19 ^^^ d4
    let t20 := a20 ^^^ d0
    let t21 := a21 ^^^ d1
    let t22 := a22 ^^^ d2
    let t23 := a23 ^^^ d3
    let t24 := a24 ^^^ d4
    let b0 := rot64 t0 0
    let b1 := rot64 t6 44
    let b2 := rot64 t12 43
    let b3 := rot64 t18 21
    let b4 := rot64 t24 14
    let b5 := rot64 t3 28
    let b6 := rot64 t9 20
    let b7 := rot64 t10 3
    let b8 := rot64 t16 45
    let b9 := rot64 t22 61
    let b10 := rot64 t1 1
    let b11 := rot64 t7 6
    let b12 := rot64 t13 25
    let b13 := rot64 t19 8
    let b14 := rot64 t20 18
    let b15 := rot64 t4 27
    let b16 := rot64 t5 36
    let b17 := rot64 t11 10
    let b18 := rot64 t17 15
    let b19 := rot64 t23 56
    let b20 := rot64 t2 62
    let b21 := rot64 t8 55
    let b22 := rot64 t14 39
    let b23 := rot64 t15 41
    let b24 := rot64 t21 2
    let u0 := b0 ^^^ (not64 b1 &&& b2)
    let u1 := b1 ^^^ (not64 b2 &&& b3)
    let u2 := b2 ^^^ (not64 b3 &&& b4)
    let u3 := b3 ^^^ (not64 b4 &&& b0)
    let u4 := b4 ^^^ (not64 b0 &&& b1)
    let u5 := b5 ^^^ (not64 b6 &&& b7)
    let u6 := b6 ^^^ (not64 b7 &&& b8)
    let u7 := b7 ^^^ (not64 b8 &&& b9)
    let u8 := b8 ^^^ (not64 b9 &&& b5)
    let u9 := b9 ^^^ (not64 b5 &&& b6)
    let u10 := b10 ^^^ (not64 b11 &&& b12)
    let u11 := b11 ^^^ (not64 b12 &&& b13)
    let u12 := b12 ^^^ (not64 b13 &&& b14)
    let u13 := b13 ^^^ (not64 b14 &&& b10)
    let u14 := b14 ^^^ (not64 b10 &&& b11)
    let u15 := b15 ^^^ (not64 b16 &&& b17)
    let u16 := b16 ^^^ (not64 b17 &&& b18)
    let u17 := b17 ^^^ (not64 b18 &&& b19)
    let u18 := b18 ^^^ (not64 b19 &&& b15)
    let u19 := b19 ^^^ (not64 b15 &&& b16)
    let u20 := b20 ^^^ (not64 b21 &&& b22)
    let u21 := b21 ^^^ (not64 b22 &&& b23)
    let u22 := b22 ^^^ (not64 b23 &&& b24)
    let u23 := b23 ^^^ (not64 b24 &&& b20)
    let u24 := b24 ^^^ (not64 b20 &&& b21)
    [u0 ^^^ rc, u1, u2, u3, u4, u5, u6, u7, u8, u9, u10, u11, u12, u13, u14, u15, u16, u17, u18, u19, u20, u21, u22, u23, u24]
  | _ => s

/-- The 24 round constants of Keccak-f[1600]. -/
def keccakRCs : List Nat :=
  [0x0000000000000001, 0x0000000000008082, 0x800000000000808a, 0x8000000080008000,
   0x000000000000808b, 0x0000000080000001, 0x8000000080008081, 0x8000000000008009,
   0x000000000000008a, 0x0000000000000088, 0x0000000080008009, 0x000000008000000a,
   0x000000008000808b, 0x800000000000008b, 0x8000000000008089, 0x8000000000008003,
   0x8000000000008002, 0x8000000000000080, 0x000000000000800a, 0x800000008000000a,
   0x8000000080008081, 0x8000000000008080, 0x0000000080000001, 0x8000000080008008]

/-- The Keccak-f[1600] permutation: 24 rounds. -/
def keccakF (s : List Nat) : List Nat := keccakRCs.foldl keccakRound s

/-- Little-endian 64-bit lane `j` of a 136-byte rate block. -/
def laneFromBytes (block : List Nat) (j : Nat) : Nat :=
  ((List.range 8).map (fun k => (block.getD (8 * j + k) 0) <<< (8 * k))).sum

/-- Absorb one rate block into the state (XOR into the first 17 lanes). -/
def xorBlock (s block : List Nat) : List Nat :=
  (List.range 25).map (fun j => s.getD j 0 ^^^ (if j < 17 then laneFromBytes block j else 0))

/-- Keccak multi-rate padding with the original 0x01 domain byte (as used
by the Ethereum keccak256). -/
def keccakPad (m : List Nat) : List Nat :=
  let q := 136 - m.length % 136
  if q = 1 then m ++ [0x81] else m ++ (0x01 :: (List.replicate (q - 2) 0 ++ [0x80]))

/-- Keccak-256 of a byte string: pad, absorb the 136-byte blocks, squeeze
32 bytes. -/
def keccak256 (m : List Nat) : List Nat :=
  let padded := keccakPad m
  let final := (List.range (padded.length / 136)).foldl
    (fun st i => keccakF (xorBlock st ((padded.drop (136 * i)).take 136))) (List.replicate 25 0)
  (List.range 32).map (fun i => ((final.getD (i / 8) 0) >>> (8 * (i % 8))) % 256)

/-- A value encoded as a 32-byte big-endian word of the struct-hash
scheme. -/
def word32 (n : Nat) : List Nat :=
  (List.range 32).map (fun i => (n >>> (8 * (31 - i))) % 256)

/-- A transaction input of the modern format: a position triple
(spec §3 Input). -/
structure TxInput where
  blknum : Nat
  txindex : Nat
  oindex : Nat
deriving DecidableEq, Repr

/-- A transaction output of the modern format (spec §3 Output). -/
structure TxOutput where
  outputType : Nat
  outputGuard : Nat
  token : Nat
  amount : Nat
deriving DecidableEq, Repr

/-- A modern transaction body as hashed by the typed-data scheme
(spec §3 TransactionBody; the metadata word is embedded as a number). -/
structure TransactionBody where
  txType : Nat
  inputs : List TxInput
  outputs : List TxOutput
  txData : Nat
  metadata : Nat
deriving DecidableEq, Repr

/-- The canonical empty input struct (all-zero fields, spec §4.3). -/
def emptyTxInput : TxInput := ⟨0, 0, 0⟩

/-- The canonical empty output struct (all-zero fields, spec §4.3). -/
def emptyTxOutput : TxOutput := ⟨0, 0, 0, 0⟩

/-- Pad a slot list with the canonical empty struct up to the fixed arity
of four (spec §4.3: the struct-hash scheme is fixed-arity by design). -/
def padTo4 {α : Type} (l : List α) (z : α) : List α :=
  (l ++ List.replicate (4 - l.length) z).take 4

/-- Modelled from the spec: the 32-byte struct hash of one input
(spec §4.3 — each input is a typed struct hashed on its own). -/
def inputStructHash (i : TxInput) : List Nat :=
  keccak256 (word32 i.blknum ++ word32 i.txindex ++ word32 i.oindex)

/-- Modelled from the spec: the 32-byte struct hash of one output
(spec §4.3). -/
def outputStructHash (o : TxOutput) : List Nat :=
  keccak256 (word32 o.outputType ++ word32 o.outputGuard ++ word32 o.token ++ word32 o.amount)

/-- The dynamic-array hash of the four (padded) input slots: the hash of
the concatenation of the element hashes (spec §4.3). -/
def inputsArrayHash (b : TransactionBody) : List Nat :=
  keccak256 ((padTo4 b.inputs emptyTxInput).map inputStructHash).flatten

/-- The dynamic-array hash of the four (padded) output slots. -/
def outputsArrayHash (b : TransactionBody) : List Nat :=
  keccak256 ((padTo4 b.outputs emptyTxOutput).map outputStructHash).flatten

/-- Modelled from the spec: `hashTransaction` (spec §4.3) — the parent
struct hash combining the ordered field encodings and the two array
hashes. -/
def hashTransaction (b : TransactionBody) : List Nat :=
  keccak256 (word32 b.txType ++ inputsArrayHash b ++ outputsArrayHash b ++
    word32 b.txData ++ word32 b.metadata)

/-- Modelled from the spec: the domain separator (spec §4.3) — the hash of
a fixed-shape struct over the contract name, version, chain id and
verifying contract address. -/
def domainSeparator (name version : List Nat) (chainId verifyingContract : Nat) : List Nat :=
  keccak256 (keccak256 name ++ keccak256 version ++ word32 chainId ++ word32 verifyingContract)

/-- A concrete domain separator; the configuration values are external
collaborator data (spec §6), so representative constants are fixed here. -/
def omgDomainSeparator : List Nat :=
  domainSeparator ("OMG Network".toList.map Char.toNat) ("1".toList.map Char.toNat) 1 0

/-- Modelled from the spec: `signingDigest` (spec §4.3) —
`keccak256("\x19\x01" || domainSeparator || hashTransaction(body))`. -/
def signingDigest (b : TransactionBody) : List Nat :=
  keccak256 ([0x19, 0x01] ++ omgDomainSeparator ++ hashTransaction b)

/-- A sample two-input / two-output body for digest sensitivity checks. -/
def sampleBody : TransactionBody :=
  ⟨1, [⟨19774001, 0, 0⟩, ⟨19774002, 1, 2⟩],
      [⟨1, 0xf4eb, 0, 1000000000000000000⟩, ⟨1, 0x3272, 0, 1000000000000000000⟩], 0, 0⟩

/-- The sample body with its two inputs in swapped order. -/
def sampleBodySwapped : TransactionBody :=
  ⟨1, [⟨19774002, 1, 2⟩, ⟨19774001, 0, 0⟩],
      [⟨1, 0xf4eb, 0, 1000000000000000000⟩, ⟨1, 0x3272, 0, 1000000000000000000⟩], 0, 0⟩

/-- The sample body with the first output amount lowered by one. -/
def sampleBodyAmount : TransactionBody :=
  ⟨1, [⟨19774001, 0, 0⟩, ⟨19774002, 1, 2⟩],
      [⟨1, 0xf4eb, 0, 999999999999999999⟩, ⟨1, 0x3272, 0, 1000000000000000000⟩], 0, 0⟩

/-- Little-endian base-256 value of a byte string (used to count the
digest space). -/
def natOfLE : List Nat → Nat
  | [] => 0
  | b :: rest => b + 256 * natOfLE rest

/-- Transaction bodies form an infinite type (amounts and indices are
unbounded). -/
instance : Infinite TransactionBody :=
  Infinite.of_injective (fun n : Nat => ⟨n, [], [], 0, 0⟩)
    (fun a b h => by
      simp only [TransactionBody.mk.injEq] at h
      exact h.1)

/-- The concrete `outputs` argument of the README's `sendTransaction`
example: two payment objects whose owner fields hold `0x`-prefixed hex
address strings. -/
def exampleOutputs : List JsOutput :=
  [{ newowner1 := .hexStr ("0xf4ebbe787311bb955bb353b7a4d8b97af8ed1c9b".toList)
     newowner2 := .byteArr []
     amount := 1000000000000000000 },
   { newowner1 := .byteArr []
     newowner2 := .hexStr ("0x3272ee86d8192f59261960c9ae186063c8c9041f".toList)
     amount := 1000000000000000000 }]

end OmgCore

namespace OmgCore

/-! ## Theorems -/

/-- Claim C1: for every valid UtxoPosition (outputIndex below TX_OFFSET,
transactionIndex·TX_OFFSET below BLOCK_OFFSET, packed value fitting in 64
unsigned bits), decoding the encoded position returns the position exactly,
field for field. -/
theorem decode_encodeUtxoPos_roundtrip (p : UtxoPosition)
    (h1 : p.oindex < TX_OFFSET)
    (h2 : p.txindex * TX_OFFSET < BLOCK_OFFSET)
    (h3 : p.blknum * BLOCK_OFFSET + p.txindex * TX_OFFSET + p.oindex < 2 ^ 64) :
    ∃ v, encodeUtxoPos p = .ok v ∧ decodeUtxoPos v = p := by
  refine ⟨p.blknum * BLOCK_OFFSET + p.txindex * TX_OFFSET + p.oindex, ?_, ?_⟩
  · simp only [encodeUtxoPos, if_neg (not_le.mpr h1), if_neg (not_le.mpr h2)]
  · obtain ⟨b, t, o⟩ := p
    simp only [UtxoPosition.mk.injEq, decodeUtxoPos, BLOCK_OFFSET, TX_OFFSET] at *
    refine ⟨?_, ?_, ?_⟩ <;> omega

/-- Claim C1 witness: the round trip at the concrete position
(blknum 1234, txindex 5, oindex 3), whose packed value fits in 64 bits. -/
theorem decode_encodeUtxoPos_roundtrip_witness :
    ∃ v, encodeUtxoPos ⟨1234, 5, 3⟩ = .ok v ∧ decodeUtxoPos v = ⟨1234, 5, 3⟩ :=
  decode_encodeUtxoPos_roundtrip ⟨1234, 5, 3⟩ (by decide) (by decide) (by decide)

/-- Claim C2: `encodeUtxoPos` returns exactly
blknum·10^15 + txindex·10^4 + oindex, raises RangeError whenever
oindex ≥ 10^4 or txindex·10^4 ≥ 10^15, and never silently truncates (every
successfully packed value decodes back to the original fields). -/
theorem encodeUtxoPos_spec (p : UtxoPosition) :
    (p.oindex < TX_OFFSET → p.txindex * TX_OFFSET < BLOCK_OFFSET →
      encodeUtxoPos p = .ok (p.blknum * BLOCK_OFFSET + p.txindex * TX_OFFSET + p.oindex)) ∧
    (TX_OFFSET ≤ p.oindex ∨ BLOCK_OFFSET ≤ p.txindex * TX_OFFSET →
      encodeUtxoPos p = .error .rangeError) ∧
    (∀ v, encodeUtxoPos p = .ok v → decodeUtxoPos v = p) := by
  refine ⟨fun h1 h2 => ?_, fun h => ?_, fun v hv => ?_⟩
  · simp only [encodeUtxoPos, if_neg (not_le.mpr h1), if_neg (not_le.mpr h2)]
  · unfold encodeUtxoPos
    rcases h with h | h
    · rw [if_pos h]
    · by_cases h1 : TX_OFFSET ≤ p.oindex
      · rw [if_pos h1]
      · rw [if_neg h1, if_pos h]
  · unfold encodeUtxoPos at hv
    by_cases h1 : TX_OFFSET ≤ p.oindex
    · rw [if_pos h1] at hv; exact absurd hv (by simp)
    · rw [if_neg h1] at hv
      by_cases h2 : BLOCK_OFFSET ≤ p.txindex * TX_OFFSET
      · rw [if_pos h2] at hv; exact absurd hv (by simp)
      · rw [if_neg h2] at hv
        obtain ⟨b, t, o⟩ := p
        simp only [Except.ok.injEq] at hv
        subst hv
        simp only [UtxoPosition.mk.injEq, decodeUtxoPos, BLOCK_OFFSET, TX_OFFSET] at *
        refine ⟨?_, ?_, ?_⟩ <;> omega

/-- Claim C2 witness: the packing formula and losslessness at the concrete
position (blknum 7, txindex 2, oindex 3). -/
theorem encodeUtxoPos_spec_witness :
    encodeUtxoPos ⟨7, 2, 3⟩ = .ok (7 * BLOCK_OFFSET + 2 * TX_OFFSET + 3) ∧
    decodeUtxoPos (7 * BLOCK_OFFSET + 2 * TX_OFFSET + 3) = ⟨7, 2, 3⟩ :=
  ⟨(encodeUtxoPos_spec ⟨7, 2, 3⟩).1 (by decide) (by decide),
   (encodeUtxoPos_spec ⟨7, 2, 3⟩).2.2 _ ((encodeUtxoPos_spec ⟨7, 2, 3⟩).1 (by decide) (by decide))⟩

/-- Claim C9: the validation layer of the legacy ChildChain wrapper is a
set of TODO stubs hard-wired to `valid = true`; every argument, however
malformed, is accepted and the operation proceeds without raising, contrary
to the claim that each precondition violation surfaces a typed error. The
theorem evaluates every validator at a failing input. -/
theorem validators_accept_malformed_arguments :
    validateInputs (.str ("garbage".toList)) = .ok () ∧
    validateOutputs .null = .ok () ∧
    validateCurrency (.num 5) = .ok () ∧
    validatePrivateKey (.arr []) = .ok () ∧
    validateAddress (.bool true) = .ok () :=
  ⟨rfl, rfl, rfl, rfl, rfl⟩

/-- Claim C3: the unsigned transaction encoder reproduces the corpus
golden vectors byte for byte — the one-input / one-output body serializes
to the first golden hex string and the two-input / two-output body to the
second. -/
theorem createTransaction_golden_vectors :
    base16Encode (createTransaction corpusBody1) =
      ("f85384012dba31808080808094000000000000000000000000000000000000000094f4ebbe787311bb955bb353b7a4d8b97af8ed1c9b880de0b6b3a764000094000000000000000000000000000000000000000080".toList) ∧
    base16Encode (createTransaction corpusBody2) =
      ("f85f84012dba31808084012dba32808094000000000000000000000000000000000000000094f4ebbe787311bb955bb353b7a4d8b97af8ed1c9b880de0b6b3a7640000943272ee86d8192f59261960c9ae186063c8c9041f880de0b6b3a7640000".toList) := by
  constructor
  · decide
  · decide

/-- Claim C4 counterexample: the raw byte encoding does pad — the corpus'
one-input / one-output body encodes to exactly the same bytes as the same
body with explicit zero placeholder entries in the absent slots, so
absence is not represented by the length of the encoded list; the encoded
bytes even end with the placeholder zero-address owner (0x94 followed by
twenty zero bytes) and an explicit zero amount (0x80) for the absent
output slot. -/
theorem createTransaction_emits_zero_placeholders :
    createTransaction corpusBody1 = createTransaction corpusBody1Padded ∧
    corpusBody1.inputs.length = 1 ∧ corpusBody1.outputs.length = 1 ∧
    corpusBody1Padded.inputs.length = 2 ∧ corpusBody1Padded.outputs.length = 2 ∧
    corpusBody1Padded.outputs.getD 1 ⟨[], 7⟩ = ⟨zeroAddress, 0⟩ ∧
    (createTransaction corpusBody1).drop 63 = 148 :: (zeroAddress ++ [128]) := by
  refine ⟨by decide, rfl, rfl, rfl, rfl, by decide, by decide⟩

/-- Claim C4 amended: when fewer than the fixed arity of two inputs / two
outputs are present, the encoder pads every absent slot with a zero-valued
placeholder entry (zero position fields, zero-address owner, zero amount):
each body encodes to exactly the same bytes as the same body explicitly
padded with zero entries, so absence is not represented by the length of
the encoded list. -/
theorem createTransaction_pads_absent_slots (body : LegacyTxBody)
    (h1 : body.inputs.length ≤ 2) (h2 : body.outputs.length ≤ 2) :
    createTransaction body =
      createTransaction
        { body with
          inputs := body.inputs ++ List.replicate (2 - body.inputs.length) zeroInput
          outputs := body.outputs ++ List.replicate (2 - body.outputs.length) zeroOutput } := by
  have hpad : ∀ {α : Type} (l : List α) (z : α), l.length ≤ 2 →
      padTo2 (l ++ List.replicate (2 - l.length) z) z = padTo2 l z := by
    intro α l z h
    match l with
    | [] => rfl
    | [a] => rfl
    | [a, b] => rfl
    | a :: b :: c :: t => simp at h
  obtain ⟨ins, outs, cur⟩ := body
  simp only [createTransaction, txPayload] at *
  rw [hpad ins zeroInput h1, hpad outs zeroOutput h2]

/-- Claim C4 amended witness: the padding law at the corpus'
one-input / one-output body. -/
theorem createTransaction_pads_absent_slots_witness :
    createTransaction corpusBody1 =
      createTransaction
        { corpusBody1 with
          inputs := corpusBody1.inputs ++ List.replicate (2 - corpusBody1.inputs.length) zeroInput
          outputs := corpusBody1.outputs ++ List.replicate (2 - corpusBody1.outputs.length) zeroOutput } :=
  createTransaction_pads_absent_slots corpusBody1 (by decide) (by decide)

/-- Claim C10: `int192toHex` performs no base conversion or digit
validation on string inputs — the decimal string "255" yields "0x255"
(not "0xff") and non-hex characters pass through; only number-typed
arguments are converted to base 16; and `prefixHex`, as well as
`int192toHex` restricted to strings, are idempotent. -/
theorem int192toHex_string_passthrough :
    int192toHex (.str ("255".toList)) = "0x255".toList ∧
    int192toHex (.str ("zz42!".toList)) = "0xzz42!".toList ∧
    int192toHex (.num 255) = "0xff".toList ∧
    (∀ s, prefixHex (prefixHex s) = prefixHex s) ∧
    (∀ s, int192toHex (.str (int192toHex (.str s))) = int192toHex (.str s)) := by
  have h4 : ∀ s, prefixHex (prefixHex s) = prefixHex s := by
    intro s
    unfold prefixHex
    by_cases h : s.take 2 = ['0', 'x']
    · rw [if_pos h, if_pos h]
    · rw [if_neg h]
      have ht : List.take 2 ('0' :: 'x' :: s) = ['0', 'x'] := rfl
      rw [if_pos ht]
  exact ⟨by decide, by decide, by decide, h4, fun s => h4 s⟩

/-- Claim C8 counterexample: `ChildChain.sendTransaction` is not
observationally pure — on the README's example arguments the call
proceeds (no error) yet the caller's `outputs` array is left different
from the value that was passed in, because the owner fields are rewritten
in place. -/
theorem sendTransaction_mutates_outputs :
    sendTransactionOutputsEffect exampleOutputs ≠ some exampleOutputs ∧
    sendTransactionOutputsEffect exampleOutputs ≠ none := by
  exact ⟨by decide, by decide⟩

/-- Claim C8 amended: the codec functions are pure, but
`ChildChain.sendTransaction` mutates its `outputs` argument: it overwrites
`outputs[0].newowner1` and `outputs[1].newowner2` with the byte-array
conversions of their hex-string values, leaving every other field and
element of the array unchanged. -/
theorem sendTransactionOutputsEffect_rewrites_owner_fields
    (o0 o1 : JsOutput) (rest : List JsOutput) (s1 s2 : List Char)
    (h1 : o0.newowner1 = .hexStr s1) (h2 : o1.newowner2 = .hexStr s2) :
    ∃ o0' o1', sendTransactionOutputsEffect (o0 :: o1 :: rest) = some (o0' :: o1' :: rest) ∧
      o0'.newowner1 = .byteArr (hexToByteArr s1) ∧
      o0'.newowner2 = o0.newowner2 ∧ o0'.amount = o0.amount ∧
      o1'.newowner2 = .byteArr (hexToByteArr s2) ∧
      o1'.newowner1 = o1.newowner1 ∧ o1'.amount = o1.amount := by
  obtain ⟨n1, n2, a⟩ := o0
  obtain ⟨m1, m2, b⟩ := o1
  dsimp only at h1 h2
  subst h1
  subst h2
  exact ⟨_, _, rfl, rfl, rfl, rfl, rfl, rfl, rfl⟩

/-- Greedy selection fails exactly when the requirement is positive and
the supplied outputs sum to less than it. -/
theorem selectUtxos_eq_none (us : List BuilderUtxo) (req : Nat) :
    selectUtxos us req = none ↔ 0 < req ∧ ((us.map (·.amount)).sum < req) := by
  induction us generalizing req with
  | nil =>
    match req with
    | 0 => simp [selectUtxos]
    | r + 1 => simp [selectUtxos]
  | cons u rest ih =>
    match req with
    | 0 => simp [selectUtxos]
    | r + 1 =>
      simp only [selectUtxos, List.map_cons, List.sum_cons]
      by_cases h : r + 1 ≤ u.amount
      · rw [if_pos h]
        simp only [reduceCtorEq, false_iff, not_and, not_lt]
        omega
      · rw [if_neg h, Option.map_eq_none', ih (r + 1 - u.amount)]
        omega

/-- Per-currency selection raises `InsufficientFundsError` with the exact
shortfall when the available amount falls short. -/
theorem selectFor_error_of_short (a : BuildArgs) (c : Nat)
    (h : availableAmount a c < requiredAmount a c) :
    selectFor a c = .error (.insufficientFunds c (requiredAmount a c - availableAmount a c)) := by
  have hnone : selectUtxos (a.fromUtxos.filter (fun u => u.currency = c))
      (requiredAmount a c) = none := by
    rw [selectUtxos_eq_none]
    exact ⟨by omega, h⟩
  unfold selectFor
  rw [hnone]

/-- Per-currency selection succeeds when the available amount covers the
requirement. -/
theorem selectFor_ok_of_not_short (a : BuildArgs) (c : Nat)
    (h : requiredAmount a c ≤ availableAmount a c) :
    ∃ sel, selectFor a c = .ok sel := by
  rcases hsel : selectUtxos (a.fromUtxos.filter (fun u => u.currency = c))
      (requiredAmount a c) with _ | sel
  · rw [selectUtxos_eq_none] at hsel
    exact absurd hsel (by unfold availableAmount at h; omega)
  · exact ⟨sel, by unfold selectFor; rw [hsel]⟩

/-- When some listed currency is short, the whole selection pass fails
with `InsufficientFundsError` for a genuinely short listed currency and
its exact shortfall. -/
theorem selectAll_error_of_short (a : BuildArgs) :
    ∀ cs : List Nat, (∃ c ∈ cs, availableAmount a c < requiredAmount a c) →
      ∃ c', selectAll a cs =
          .error (.insufficientFunds c' (requiredAmount a c' - availableAmount a c')) ∧
        availableAmount a c' < requiredAmount a c' ∧ c' ∈ cs := by
  intro cs
  induction cs with
  | nil => rintro ⟨c, hc, _⟩; exact absurd hc (List.not_mem_nil c)
  | cons c0 rest ih =>
    rintro ⟨c, hc, hshort⟩
    by_cases h0 : availableAmount a c0 < requiredAmount a c0
    · refine ⟨c0, ?_, h0, List.mem_cons_self c0 rest⟩
      unfold selectAll
      rw [selectFor_error_of_short a c0 h0]
    · have hcrest : c ∈ rest := by
        rcases List.mem_cons.mp hc with h | h
        · subst h; exact absurd hshort h0
        · exact h
      obtain ⟨c', herr, hs, hmem⟩ := ih ⟨c, hcrest, hshort⟩
      obtain ⟨sel, hok⟩ := selectFor_ok_of_not_short a c0 (by omega)
      refine ⟨c', ?_, hs, List.mem_cons_of_mem c0 hmem⟩
      unfold selectAll
      rw [hok, herr]

/-- A successful selection pass returns exactly the per-currency greedy
selections, in currency order. -/
theorem selectAll_ok_eq (a : BuildArgs) :
    ∀ (cs : List Nat) (sels : List (Nat × List BuilderUtxo)), selectAll a cs = .ok sels →
      sels = cs.map (fun c => (c, getSel a c)) := by
  intro cs
  induction cs with
  | nil =>
    intro sels h
    simp only [selectAll, Except.ok.injEq] at h
    simp [h.symm]
  | cons c0 rest ih =>
    intro sels h
    unfold selectAll at h
    rcases hf : selectFor a c0 with e | sel <;> rw [hf] at h
    · exact absurd h (by simp)
    · rcases hr : selectAll a rest with e | rest' <;> rw [hr] at h
      · exact absurd h (by simp)
      · simp only [Except.ok.injEq] at h
        subst h
        have hg : getSel a c0 = sel := by unfold getSel; rw [hf]
        simp [List.map_cons, hg, ih rest' hr]

/-- A change output carries the currency it was computed for. -/
theorem changeFor_currency (a : BuildArgs) (c : Nat) (sel : List BuilderUtxo)
    (out : BuiltOutput) (h : changeFor a (c, sel) = some out) : out.currency = c := by
  unfold changeFor at h
  split at h
  · cases h
    rfl
  · cases h

/-- No change output in currency `c` arises from currencies other than
`c`. -/
theorem filter_changeOuts_not_mem (a : BuildArgs) (c : Nat) :
    ∀ cs : List Nat, c ∉ cs →
      ((cs.map (fun cp => (cp, getSel a cp))).filterMap (changeFor a)).filter
        (fun o => o.currency == c) = [] := by
  intro cs
  induction cs with
  | nil => intro _; rfl
  | cons c0 rest ih =>
    intro hnot
    have hc0 : c0 ≠ c := fun h => hnot (h ▸ List.mem_cons_self c0 rest)
    have hrest := ih (fun h => hnot (List.mem_cons_of_mem c0 h))
    simp only [List.map_cons, List.filterMap_cons]
    rcases hch : changeFor a (c0, getSel a c0) with _ | out
    · exact hrest
    · have hcur := changeFor_currency a c0 (getSel a c0) out hch
      rw [List.filter_cons]
      have hfalse : (out.currency == c) = false := by
        rw [hcur]
        exact beq_eq_false_iff_ne.mpr hc0
      rw [hfalse]
      exact hrest

/-- Over a duplicate-free currency list containing `c`, the change outputs
in currency `c` are exactly the one change entry computed for `c`. -/
theorem filter_change (a : BuildArgs) (c : Nat) :
    ∀ cs : List Nat, cs.Nodup → c ∈ cs →
      ((cs.map (fun cp => (cp, getSel a cp))).filterMap (changeFor a)).filter
          (fun o => o.currency == c) =
        (changeFor a (c, getSel a c)).toList := by
  intro cs
  induction cs with
  | nil => intro _ hc; exact absurd hc (List.not_mem_nil c)
  | cons c0 rest ih =>
    intro hnodup hc
    have hnodup' := List.nodup_cons.mp hnodup
    simp only [List.map_cons, List.filterMap_cons]
    rcases List.mem_cons.mp hc with heq | hmem
    · subst heq
      rcases hch : changeFor a (c, getSel a c) with _ | out
      · rw [Option.toList_none]
        exact filter_changeOuts_not_mem a c rest hnodup'.1
      · rw [Option.toList_some, List.filter_cons]
        have hcur := changeFor_currency a c (getSel a c) out hch
        rw [hcur, beq_self_eq_true]
        rw [filter_changeOuts_not_mem a c rest hnodup'.1]
        rfl
    · have hc0 : c0 ≠ c := fun h => hnodup'.1 (h ▸ hmem)
      rcases hch : changeFor a (c0, getSel a c0) with _ | out
      · exact ih hnodup'.2 hmem
      · rw [List.filter_cons]
        have hcurr := changeFor_currency a c0 (getSel a c0) out hch
        have hfalse : (out.currency == c) = false := by
          rw [hcurr]
          exact beq_eq_false_iff_ne.mpr hc0
        rw [hfalse]
        exact ih hnodup'.2 hmem

/-- On every successful build, the change outputs (those after the payment
outputs) restricted to a required currency `c` are exactly one output of
`selected − required` back to the sender when the difference is positive,
and none when it is zero. -/
theorem change_outputs_characterization (a : BuildArgs) (body : BuiltBody)
    (hok : createTransactionBody a = .ok body) (c : Nat) (hc : c ∈ requiredCurrencies a) :
    (body.outputs.drop a.payments.length).filter (fun o => o.currency == c) =
      (if requiredAmount a c < selectedAmount a c then
        [⟨1, a.fromAddress, c, selectedAmount a c - requiredAmount a c⟩]
      else []) := by
  unfold createTransactionBody at hok
  rcases hall : selectAll a (requiredCurrencies a) with e | sels <;> rw [hall] at hok
  · exact absurd hok (by simp)
  · dsimp only at hok
    split at hok
    · exact absurd hok (by simp)
    · split at hok
      · exact absurd hok (by simp)
      · simp only [Except.ok.injEq] at hok
        subst hok
        dsimp only
        have hlen : (a.payments.map paymentOutput).length = a.payments.length := by
          rw [List.length_map]
        rw [← hlen, List.drop_left]
        have hsels := selectAll_ok_eq a (requiredCurrencies a) sels hall
        subst hsels
        rw [filter_change a c (requiredCurrencies a) (List.nodup_dedup _) hc]
        unfold changeFor selectedAmount
        dsimp only
        split
        · rw [Option.toList_some]
        · rw [Option.toList_none]

/-- Claim C5: whenever the caller-supplied outputs of some required
currency sum to strictly less than the total requirement (payments plus
fee in that currency), the builder fails with `InsufficientFundsError`
identifying a genuinely short required currency and its exact shortfall,
and returns no transaction body. -/
theorem createTransactionBody_insufficient_funds (a : BuildArgs) (c : Nat)
    (hc : c ∈ requiredCurrencies a)
    (hshort : availableAmount a c < requiredAmount a c) :
    (∃ c', createTransactionBody a =
        .error (.insufficientFunds c' (requiredAmount a c' - availableAmount a c')) ∧
      availableAmount a c' < requiredAmount a c' ∧ c' ∈ requiredCurrencies a) ∧
    (∀ body, createTransactionBody a ≠ .ok body) := by
  obtain ⟨c', herr, hs, hmem⟩ :=
    selectAll_error_of_short a (requiredCurrencies a) ⟨c, hc, hshort⟩
  have hbuild : createTransactionBody a =
      .error (.insufficientFunds c' (requiredAmount a c' - availableAmount a c')) := by
    unfold createTransactionBody
    rw [herr]
  refine ⟨⟨c', hbuild, hs, hmem⟩, fun body hbody => ?_⟩
  rw [hbuild] at hbody
  cases hbody

/-- Claim C5 witness: a payment of 2·10^18 against an available 10^18 in
the same currency fails with the 10^18 shortfall. -/
theorem createTransactionBody_insufficient_funds_witness :
    (∃ c', createTransactionBody insufficientArgs =
        .error (.insufficientFunds c'
          (requiredAmount insufficientArgs c' - availableAmount insufficientArgs c')) ∧
      availableAmount insufficientArgs c' < requiredAmount insufficientArgs c' ∧
      c' ∈ requiredCurrencies insufficientArgs) ∧
    (∀ body, createTransactionBody insufficientArgs ≠ .ok body) :=
  createTransactionBody_insufficient_funds insufficientArgs 0 (by decide) (by decide)

/-- Claim C6: with one available output of 10^18 and a payment of the full
10^18 (zero fee) the built body has no change output; with a payment of
4·10^17 it has exactly one change output of 6·10^17 back to the sender;
and in general, for each required currency, a successful build emits
exactly one change output of `selected − required` when the difference is
positive and none when it is zero. -/
theorem createTransactionBody_change_correctness :
    createTransactionBody changeArgsFull =
      .ok ⟨1, [⟨5, 0, 0, 0, 1000000000000000000⟩], [⟨1, 2, 0, 1000000000000000000⟩], 0⟩ ∧
    createTransactionBody changeArgsPartial =
      .ok ⟨1, [⟨5, 0, 0, 0, 1000000000000000000⟩],
           [⟨1, 2, 0, 400000000000000000⟩, ⟨1, 1, 0, 600000000000000000⟩], 0⟩ ∧
    (∀ (a : BuildArgs) (body : BuiltBody), createTransactionBody a = .ok body →
      ∀ c ∈ requiredCurrencies a,
        (body.outputs.drop a.payments.length).filter (fun o => o.currency == c) =
          (if requiredAmount a c < selectedAmount a c then
            [⟨1, a.fromAddress, c, selectedAmount a c - requiredAmount a c⟩]
          else [])) :=
  ⟨rfl, rfl, fun a body hok c hc => change_outputs_characterization a body hok c hc⟩

/-- Claim C6 witness: the general change law at the partial-payment
scenario — the single change output of 6·10^17 back to the sender. -/
theorem createTransactionBody_change_correctness_witness :
    ((⟨1, [⟨5, 0, 0, 0, 1000000000000000000⟩],
        [⟨1, 2, 0, 400000000000000000⟩, ⟨1, 1, 0, 600000000000000000⟩], 0⟩ : BuiltBody).outputs.drop
          changeArgsPartial.payments.length).filter (fun o => o.currency == 0) =
      (if requiredAmount changeArgsPartial 0 < selectedAmount changeArgsPartial 0 then
        [⟨1, changeArgsPartial.fromAddress, 0,
          selectedAmount changeArgsPartial 0 - requiredAmount changeArgsPartial 0⟩]
      else []) :=
  createTransactionBody_change_correctness.2.2 changeArgsPartial _ rfl 0 (by decide)

/-- Keccak-256 digests are exactly 32 bytes long. -/
theorem keccak256_length (m : List Nat) : (keccak256 m).length = 32 := by
  simp [keccak256]

/-- Every Keccak-256 digest entry is a byte value. -/
theorem keccak256_bytes_lt (m : List Nat) : ∀ x ∈ keccak256 m, x < 256 := by
  intro x hx
  simp only [keccak256, List.mem_map, List.mem_range] at hx
  obtain ⟨i, _, rfl⟩ := hx
  exact Nat.mod_lt _ (by norm_num)

/-- Signing digests are exactly 32 bytes long. -/
theorem signingDigest_length (b : TransactionBody) : (signingDigest b).length = 32 := by
  unfold signingDigest
  exact keccak256_length _

/-- Every signing-digest entry is a byte value. -/
theorem signingDigest_bytes_lt (b : TransactionBody) : ∀ x ∈ signingDigest b, x < 256 := by
  unfold signingDigest
  exact keccak256_bytes_lt _

/-- The base-256 value determines a byte string of known length. -/
theorem natOfLE_inj : ∀ (l lp : List Nat), l.length = lp.length →
    (∀ x ∈ l, x < 256) → (∀ x ∈ lp, x < 256) → natOfLE l = natOfLE lp → l = lp := by
  intro l
  induction l with
  | nil =>
    intro lp hlen _ _ _
    cases lp with
    | nil => rfl
    | cons b r => exact absurd hlen (by simp)
  | cons b r ih =>
    intro lp hlen hb hbp heq
    cases lp with
    | nil => exact absurd hlen (by simp)
    | cons bp rp =>
      simp only [natOfLE] at heq
      have hb1 : b < 256 := hb b (List.mem_cons_self b r)
      have hb2 : bp < 256 := hbp bp (List.mem_cons_self bp rp)
      have hbeq : b = bp ∧ natOfLE r = natOfLE rp := by omega
      have hr := ih rp (by simpa using hlen)
        (fun x hx => hb x (List.mem_cons_of_mem b hx))
        (fun x hx => hbp x (List.mem_cons_of_mem bp hx)) hbeq.2
      rw [hbeq.1, hr]

/-- The base-256 value of a byte string is bounded by 256 to its
length. -/
theorem natOfLE_lt : ∀ l : List Nat, (∀ x ∈ l, x < 256) → natOfLE l < 256 ^ l.length := by
  intro l
  induction l with
  | nil => intro _; simp [natOfLE]
  | cons b r ih =>
    intro hb
    have h1 := ih (fun x hx => hb x (List.mem_cons_of_mem b hx))
    have h2 := hb b (List.mem_cons_self b r)
    simp only [natOfLE, List.length_cons, pow_succ]
    nlinarith

/-- Claim C7 counterexample: the injectivity half of the claim is false —
it cannot hold that every pair of distinct transaction bodies yields
distinct signing digests, because the digests live in the finite space of
32-byte values while bodies are unboundedly many (the determinism half
does hold: the digest is a pure function of the body). -/
theorem signingDigest_not_injective :
    ¬ (∀ b bp : TransactionBody, b ≠ bp → signingDigest b ≠ signingDigest bp) := by
  intro hclaim
  have hinj : Function.Injective signingDigest := by
    intro b bp h
    by_contra hne
    exact hclaim b bp hne h
  have hbound : ∀ b : TransactionBody, natOfLE (signingDigest b) < 256 ^ 32 := by
    intro b
    have := natOfLE_lt (signingDigest b) (signingDigest_bytes_lt b)
    rwa [signingDigest_length] at this
  have hF : Function.Injective
      (fun b : TransactionBody => (⟨natOfLE (signingDigest b), hbound b⟩ : Fin (256 ^ 32))) := by
    intro b bp h
    simp only [Fin.mk.injEq] at h
    exact hinj (natOfLE_inj _ _ (by rw [signingDigest_length, signingDigest_length])
      (signingDigest_bytes_lt _) (signingDigest_bytes_lt _) h)
  haveI : Finite TransactionBody := Finite.of_injective _ hF
  exact not_finite TransactionBody

/-- Claim C7 amended: the signing digest is a pure function of the body
(deterministic by construction) and separates the concretely checked
distinct bodies: swapping the order of the two inputs changes the digest,
as does changing one output amount; universal injectivity over all pairs
of distinct bodies, however, cannot hold on a finite digest space. -/
theorem signingDigest_sensitivity :
    sampleBody ≠ sampleBodySwapped ∧
    signingDigest sampleBody ≠ signingDigest sampleBodySwapped ∧
    sampleBody ≠ sampleBodyAmount ∧
    signingDigest sampleBody ≠ signingDigest sampleBodyAmount := by
  refine ⟨by decide, by decide, by decide, by decide⟩

/-- Claim C8 amended witness: the rewrite at the README's example
arguments; the first owner field becomes the 20-byte array of the address
0xf4eb…1c9b. -/
theorem sendTransactionOutputsEffect_rewrites_owner_fields_witness :
    ∃ o0' o1',
      sendTransactionOutputsEffect exampleOutputs = some (o0' :: o1' :: []) ∧
      o0'.newowner1 = .byteArr (hexToByteArr ("0xf4ebbe787311bb955bb353b7a4d8b97af8ed1c9b".toList)) ∧
      o0'.newowner2 = .byteArr [] ∧ o0'.amount = 1000000000000000000 ∧
      o1'.newowner2 = .byteArr (hexToByteArr ("0x3272ee86d8192f59261960c9ae186063c8c9041f".toList)) ∧
      o1'.newowner1 = .byteArr [] ∧ o1'.amount = 1000000000000000000 :=
  sendTransactionOutputsEffect_rewrites_owner_fields _ _ [] _ _ rfl rfl

end OmgCore
